import Mathlib
set_option maxRecDepth 4096

/-!
Shallow embedding of the `rust_matrix` crate (dense 2-D matrix with
row/column accessors, bidirectional iterators and a transposed view),
verified against the repository specification.

Coordinates: the crate is generic over a `Coordinate` type family
(`i8 .. u64`, `char`).  The main embedding instantiates the coordinate
type at a signed 64-bit integer modelled by `Int` with exact arithmetic
(no `i64` operation overflows on any reachable value in this model, and
`i64 -> usize` conversion fails exactly on negative values).  Where a
claim depends on a *narrow* coordinate type, a separate `i8` embedding
with wrapping arithmetic is provided (`wrap8`, `indexAddressI8`).
-/

/-- `src/matrix_address.rs`: a cell address, `row`/`column` pair.
Derived `Ord` in Rust compares fields in declaration order:
`row` first, then `column` (row-major / lexicographic order). -/
structure MatrixAddress where
  row : Int
  column : Int
deriving DecidableEq, Repr

namespace MatrixAddress

/-- `MatrixAddress::transpose` (`src/matrix_address.rs:67-69`):
swaps row and column. -/
def transpose (a : MatrixAddress) : MatrixAddress :=
  { row := a.column, column := a.row }

/-- `MatrixAddress::default` (`src/matrix_address.rs:179-189`): the origin. -/
def origin : MatrixAddress := { row := 0, column := 0 }

/-- The derived lexicographic `Ord` on `MatrixAddress` (row, then column),
used by `Vec::sort` in `neighbors`. -/
def le (a b : MatrixAddress) : Prop :=
  a.row < b.row ∨ (a.row = b.row ∧ a.column ≤ b.column)

instance : DecidableRel le := by
  intro a b
  unfold le
  infer_instance

instance : IsTotal MatrixAddress le := by
  constructor
  intro a b
  unfold le
  omega

instance : IsTrans MatrixAddress le := by
  constructor
  intro a b c hab hbc
  unfold le at hab hbc ⊢
  omega

/-- `impl Add for MatrixAddress` (componentwise, not bounds-checked). -/
def add (a b : MatrixAddress) : MatrixAddress :=
  { row := a.row + b.row, column := a.column + b.column }

/-- `impl Sub for MatrixAddress` (componentwise, not bounds-checked). -/
def sub (a b : MatrixAddress) : MatrixAddress :=
  { row := a.row - b.row, column := a.column - b.column }

end MatrixAddress

/-- `Range<MatrixAddress>`: half-open interval of addresses. -/
structure AddrRange where
  start : MatrixAddress
  stop : MatrixAddress

/-- `src/dense_matrix.rs`: row-major contiguous store.
`data` is the backing `Vec<T>` in row-major order. -/
structure DenseMatrix (T : Type) where
  columns : Int
  rows : Int
  data : List T
deriving DecidableEq, Repr

namespace DenseMatrix

variable {T : Type}

/-- `DenseMatrix::new` (`src/dense_matrix.rs:26-28`). -/
def new (columns rows : Int) (data : List T) : DenseMatrix T :=
  { columns := columns, rows := rows, data := data }

/-- `Tensor::range` for `DenseMatrix` (`src/dense_matrix.rs:96-109`):
start is the origin, end holds the column/row counts. -/
def range (m : DenseMatrix T) : AddrRange :=
  { start := { row := 0, column := 0 },
    stop := { row := m.rows, column := m.columns } }

/-- `Tensor::contains` (`src/traits.rs:74-80`): each dimension of the
address checked against the half-open range; dimension 0 is the column,
dimension 1 the row. -/
def contains (m : DenseMatrix T) (a : MatrixAddress) : Bool :=
  (decide ((m.range).start.column ≤ a.column) && decide (a.column < (m.range).stop.column))
  && (decide ((m.range).start.row ≤ a.row) && decide (a.row < (m.range).stop.row))

/-- `i64 -> usize` conversion (`try_into` in `index_address`): fails
exactly on negative values on a 64-bit platform. -/
def tryIntoUsize (x : Int) : Option Nat :=
  if 0 ≤ x then some x.toNat else none

/-- `DenseMatrix::index_address` (`src/dense_matrix.rs:30-35`):
linear offset `row * columns + column` computed in the coordinate
type's arithmetic, then converted to `usize`; `none` models the
`panic!("address overflows usize. This should be unreachable.")` arm. -/
def index_address (m : DenseMatrix T) (a : MatrixAddress) : Option Nat :=
  tryIntoUsize (a.row * m.columns + a.column)

/-- `Tensor::get` for `DenseMatrix` (`src/dense_matrix.rs:111-118`):
bounds check, then `data.get(index_address)`. -/
def get (m : DenseMatrix T) (a : MatrixAddress) : Option T :=
  if m.contains a then (m.index_address a).bind (fun n => m.data.get? n) else none

/-- A write through `Tensor::get_mut` (`src/dense_matrix.rs:120-127`):
`get_mut` returns a mutable reference to the same cell `get` resolves,
so assigning through it replaces the backing cell at that offset.
Out-of-range (or unreachable conversion-failure) cases leave the
matrix unchanged because `get_mut` returns `None` there. -/
def set (m : DenseMatrix T) (a : MatrixAddress) (v : T) : DenseMatrix T :=
  if m.contains a then
    match m.index_address a with
    | some n => { m with data := m.data.set n v }
    | none => m
  else m

/-- `Matrix::row_count`. -/
def row_count (m : DenseMatrix T) : Int := m.rows

/-- `Matrix::column_count`. -/
def column_count (m : DenseMatrix T) : Int := m.columns

/-- The constructor-established invariant (spec section 3): backing
length equals `rows * columns`, counts non-negative. -/
def wellFormed (m : DenseMatrix T) : Prop :=
  0 ≤ m.rows ∧ 0 ≤ m.columns ∧ (m.data.length : Int) = m.rows * m.columns

end DenseMatrix

/-- `src/row.rs`: non-owning accessor binding a matrix to a fixed row. -/
structure Row (M : Type) where
  matrix : M
  row : Int

/-- `src/column.rs`: non-owning accessor binding a matrix to a fixed column. -/
structure Column (M : Type) where
  matrix : M
  column : Int

namespace DenseMatrix

variable {T : Type}

/-- `DenseMatrix::row` (`src/dense_matrix.rs:67-73`): `None` for a
negative or too-large row number, else the accessor. -/
def row (m : DenseMatrix T) (row_num : Int) : Option (Row (DenseMatrix T)) :=
  if row_num < 0 ∨ m.rows ≤ row_num then none
  else some { matrix := m, row := row_num }

/-- `DenseMatrix::column` (`src/dense_matrix.rs:75-81`). -/
def column (m : DenseMatrix T) (column_num : Int) : Option (Column (DenseMatrix T)) :=
  if column_num < 0 ∨ m.columns ≤ column_num then none
  else some { matrix := m, column := column_num }

end DenseMatrix

/-- `src/transpose.rs`: zero-copy transposed view over a matrix.
The embedding takes the underlay to be a dense matrix (the view in the
crate wraps any `dyn Matrix`; every claim exercises it over a dense
store). -/
structure TransposedMatrix (T : Type) where
  underlay : DenseMatrix T

namespace TransposedMatrix

variable {T : Type}

/-- `TransposedMatrix::row_count` (`src/transpose.rs:62-64`). -/
def row_count (m : TransposedMatrix T) : Int := m.underlay.column_count

/-- `TransposedMatrix::column_count` (`src/transpose.rs:66-68`). -/
def column_count (m : TransposedMatrix T) : Int := m.underlay.row_count

/-- `Tensor::get` for the view (`src/transpose.rs:28-30`): transpose
the address, delegate to the underlay. -/
def get (m : TransposedMatrix T) (a : MatrixAddress) : Option T :=
  m.underlay.get a.transpose

/-- A write through the view's `get_mut` (`src/transpose.rs:32-34`):
delegates to the underlay's `get_mut` at the transposed address. -/
def set (m : TransposedMatrix T) (a : MatrixAddress) (v : T) : TransposedMatrix T :=
  { underlay := m.underlay.set a.transpose v }

/-- `TransposedMatrix::row` (`src/transpose.rs:85-91`). -/
def row (m : TransposedMatrix T) (row_num : Int) : Option (Row (TransposedMatrix T)) :=
  if 0 ≤ row_num ∧ row_num < m.row_count
  then some { matrix := m, row := row_num }
  else none

/-- `TransposedMatrix::column` (`src/transpose.rs:93-99`). -/
def column (m : TransposedMatrix T) (col_num : Int) : Option (Column (TransposedMatrix T)) :=
  if 0 ≤ col_num ∧ col_num < m.column_count
  then some { matrix := m, column := col_num }
  else none

end TransposedMatrix

/-! ## Construction (`src/factories.rs`, `src/error.rs`)

`Outcome` models `crate::error::Result` plus an explicit `fault`
constructor for Rust panics (so that a construction path that panics
is distinguishable from one returning `Err`). -/

inductive Outcome (T : Type) where
  | ok (m : DenseMatrix T)
  | err (msg : String)
  | fault (msg : String)
deriving DecidableEq, Repr

/-- `usize -> i64` conversion (`columns_usize.try_into()` in
`new_matrix`): fails when the value exceeds the coordinate type's
range (for the `i64` instantiation, `2^63 - 1`). -/
def tryFromUsize (n : Nat) : Option Int :=
  if n ≤ 2 ^ 63 - 1 then some (n : Int) else none

/-- `CheckedMul::checked_multiply` for signed coordinates
(`src/traits.rs:197-207` via `checked_multiply_signed`): `None` on a
negative operand or on `i64` multiplication overflow; the final
`usize` conversion always succeeds for a non-negative `i64` value. -/
def checked_multiply (lhs rhs : Int) : Option Nat :=
  if lhs < 0 ∨ rhs < 0 then none
  else if 2 ^ 63 - 1 < lhs * rhs then none
  else some (lhs * rhs).toNat

/-- `new_matrix` (`src/factories.rs:18-47`).  Checks, in source order:
negative row count; row count to `usize`; empty data (0x0 success or
"missing row data"); `len % row_usize` — Rust's `%` panics when
`row_usize == 0`, which is reachable here (zero rows with non-empty
data) and is modelled by the `fault` outcome; divisibility; converting
the derived column count back into the coordinate type. -/
def new_matrix {T : Type} (rows : Int) (data : List T) : Outcome T :=
  if rows < 0 then .err "negative row count not supported"
  else
    match DenseMatrix.tryIntoUsize rows with
    | none => .err "row count cannot be coerced to usize"
    | some rowUsize =>
      let len := data.length
      if len = 0 ∧ rows = 0 then .ok (DenseMatrix.new 0 0 data)
      else if len = 0 then .err "missing row data"
      else if rowUsize = 0 then .fault "attempt to calculate the remainder with a divisor of zero"
      else if len % rowUsize ≠ 0 then
        .err ("data length " ++ toString len ++ " is not a multiple of rows (" ++ toString rowUsize ++ ")")
      else
        match tryFromUsize (len / rowUsize) with
        | none => .err "cannot convert columns back to I"
        | some columns => .ok (DenseMatrix.new columns rows data)

/-- `new_default_matrix` (`src/factories.rs:51-65`): checked product,
then a vector of `len` default values handed to `new_matrix`.
The `T::default()` value is passed explicitly. -/
def new_default_matrix {T : Type} (dflt : T) (columns rows : Int) : Outcome T :=
  match checked_multiply rows columns with
  | none => .err "matrix dimensions exceed chosen index size"
  | some len => new_matrix rows (List.replicate len dflt)

/-- `new_transposed_matrix` (`src/factories.rs:6-13`). -/
def new_transposed_matrix {T : Type} (underlay : DenseMatrix T) : TransposedMatrix T :=
  { underlay := underlay }

/-! ## Iterator family (`src/iter.rs`)

The iterators are embedded as explicit state machines; a `next` step
returns the yielded item (if any) together with the successor state. -/

/-- `MatrixForwardIterator` (`src/iter.rs:10-15`): bounds-driven
row-major cursor. -/
structure MatrixForwardIterator where
  end_exclusive : MatrixAddress
  cursor : Option MatrixAddress

namespace MatrixForwardIterator

/-- `MatrixForwardIterator::new` (`src/iter.rs:19-31`): cursor starts
at the origin, or is immediately absent when the bound is the origin. -/
def new (end_exclusive : MatrixAddress) : MatrixForwardIterator :=
  if end_exclusive = MatrixAddress.origin then
    { end_exclusive := end_exclusive, cursor := none }
  else
    { end_exclusive := end_exclusive, cursor := some MatrixAddress.origin }

/-- `Iterator::next` (`src/iter.rs:38-59`): yield the cursor, then
advance column-first, wrapping to the next row at the end-exclusive
column bound and terminating at the end-exclusive row bound. -/
def next (s : MatrixForwardIterator) : Option MatrixAddress × MatrixForwardIterator :=
  match s.cursor with
  | none => (none, s)
  | some v =>
    let v1 : MatrixAddress := { v with column := v.column + 1 }
    if v1.column = s.end_exclusive.column then
      let v2 : MatrixAddress := { v1 with row := v1.row + 1 }
      if v2.row = s.end_exclusive.row then
        (some v, { s with cursor := none })
      else
        (some v, { s with cursor := some { v2 with column := 0 } })
    else
      (some v, { s with cursor := some v1 })

/-- Drive the iterator for `n` calls to `next`, collecting the yielded
addresses in order and returning the final state. -/
def run : Nat → MatrixForwardIterator → List MatrixAddress × MatrixForwardIterator
  | 0, s => ([], s)
  | n + 1, s =>
    match s.next with
    | (none, s1) => ((run n s1).1, (run n s1).2)
    | (some a, s1) => (a :: (run n s1).1, (run n s1).2)


end MatrixForwardIterator

/-- The row-major address sequence of an `R x C` surface: the reference
order the iterator is checked against. -/
def rowMajorAddresses (R C : Nat) : List MatrixAddress :=
  (List.range R).flatMap
    (fun (r : Nat) => (List.range C).map
      (fun (c : Nat) => { row := (r : Int), column := (c : Int) }))

/-- `MatrixRowIterator` (`src/iter.rs:142-151`): converging forward and
backward column cursors over a fixed row, plus the `terminated` flag. -/
structure MatrixRowIterator where
  row : Int
  column_cursor_forward : Int
  column_cursor_back : Int
  terminated : Bool

namespace MatrixRowIterator

/-- `MatrixRowIterator::new` (`src/iter.rs:158-166`): forward cursor at
zero, back cursor at `column_count - 1`, pre-terminated on a zero-width
axis. -/
def new {T : Type} (m : DenseMatrix T) (row : Int) : MatrixRowIterator :=
  { row := row
    column_cursor_forward := 0
    column_cursor_back := m.column_count - 1
    terminated := m.column_count = 0 }

/-- `Iterator::next` (`src/iter.rs:176-194`): yield at the forward
cursor, set `terminated` if the cursors met, then advance forward.
The yielded item is the address the source indexes the matrix with
(the source yields `&matrix[addr]`). -/
def next (s : MatrixRowIterator) : Option MatrixAddress × MatrixRowIterator :=
  if s.terminated then (none, s)
  else
    let addr : MatrixAddress := { row := s.row, column := s.column_cursor_forward }
    let s1 := if s.column_cursor_forward = s.column_cursor_back then { s with terminated := true } else s
    (some addr, { s1 with column_cursor_forward := s1.column_cursor_forward + 1 })

/-- `DoubleEndedIterator::next_back` (`src/iter.rs:202-218`): yield at
the back cursor, set `terminated` if the cursors met, otherwise
retreat the back cursor. -/
def next_back (s : MatrixRowIterator) : Option MatrixAddress × MatrixRowIterator :=
  if s.terminated then (none, s)
  else
    let addr : MatrixAddress := { row := s.row, column := s.column_cursor_back }
    if s.column_cursor_back = s.column_cursor_forward then
      (some addr, { s with terminated := true })
    else
      (some addr, { s with column_cursor_back := s.column_cursor_back - 1 })

/-- Consume the iterator under an arbitrary interleaving of front
(`true` = `next`) and back (`false` = `next_back`) calls, collecting
the addresses yielded by each end separately (in call order). -/
def run : List Bool → MatrixRowIterator → List MatrixAddress × List MatrixAddress × MatrixRowIterator
  | [], s => ([], [], s)
  | true :: ds, s =>
    match s.next with
    | (none, s1) => run ds s1
    | (some a, s1) =>
      match run ds s1 with
      | (f, b, s2) => (a :: f, b, s2)
  | false :: ds, s =>
    match s.next_back with
    | (none, s1) => run ds s1
    | (some a, s1) =>
      match run ds s1 with
      | (f, b, s2) => (f, a :: b, s2)

end MatrixRowIterator

/-- `MatrixColumnIterator` (`src/iter.rs:291-300`): converging forward
and backward row cursors over a fixed column, plus the flag. -/
structure MatrixColumnIterator where
  column : Int
  row_cursor_forward : Int
  row_cursor_back : Int
  terminated : Bool

namespace MatrixColumnIterator

/-- `MatrixColumnIterator::new` (`src/iter.rs:307-315`): forward cursor
at zero, back cursor at `row_count - 1`, pre-terminated on a zero-height
axis. -/
def new {T : Type} (m : DenseMatrix T) (column : Int) : MatrixColumnIterator :=
  { column := column
    row_cursor_forward := 0
    row_cursor_back := m.row_count - 1
    terminated := m.row_count = 0 }

/-- `Iterator::next` (`src/iter.rs:325-343`). -/
def next (s : MatrixColumnIterator) : Option MatrixAddress × MatrixColumnIterator :=
  if s.terminated then (none, s)
  else
    let addr : MatrixAddress := { row := s.row_cursor_forward, column := s.column }
    let s1 := if s.row_cursor_forward = s.row_cursor_back then { s with terminated := true } else s
    (some addr, { s1 with row_cursor_forward := s1.row_cursor_forward + 1 })

/-- `DoubleEndedIterator::next_back` (`src/iter.rs:351-367`). -/
def next_back (s : MatrixColumnIterator) : Option MatrixAddress × MatrixColumnIterator :=
  if s.terminated then (none, s)
  else
    let addr : MatrixAddress := { row := s.row_cursor_back, column := s.column }
    if s.row_cursor_back = s.row_cursor_forward then
      (some addr, { s with terminated := true })
    else
      (some addr, { s with row_cursor_back := s.row_cursor_back - 1 })

/-- Consume under an arbitrary front/back interleaving, as for the row
iterator. -/
def run : List Bool → MatrixColumnIterator → List MatrixAddress × List MatrixAddress × MatrixColumnIterator
  | [], s => ([], [], s)
  | true :: ds, s =>
    match s.next with
    | (none, s1) => run ds s1
    | (some a, s1) =>
      match run ds s1 with
      | (f, b, s2) => (a :: f, b, s2)
  | false :: ds, s =>
    match s.next_back with
    | (none, s1) => run ds s1
    | (some a, s1) =>
      match run ds s1 with
      | (f, b, s2) => (f, a :: b, s2)

end MatrixColumnIterator

/-! ## Neighbors (`src/matrix_address.rs:30-64`) -/

namespace MatrixAddress

/-- The conditional pushes of `MatrixAddress::neighbors`, in source
order, before the final sort. -/
def neighborsUnsorted {T : Type} (a : MatrixAddress) (m : DenseMatrix T) : List MatrixAddress :=
  (if 0 < a.column then
      (if 0 < a.row then [{ row := a.row - 1, column := a.column - 1 }] else [])
      ++ [{ row := a.row, column := a.column - 1 }]
      ++ (if a.row < m.row_count - 1 then [{ row := a.row + 1, column := a.column - 1 }] else [])
    else [])
  ++ (if 0 < a.row then [{ row := a.row - 1, column := a.column }] else [])
  ++ (if a.row < m.row_count - 1 then [{ row := a.row + 1, column := a.column }] else [])
  ++ (if a.column < m.column_count - 1 then
      (if 0 < a.row then [{ row := a.row - 1, column := a.column + 1 }] else [])
      ++ [{ row := a.row, column := a.column + 1 }]
      ++ (if a.row < m.row_count - 1 then [{ row := a.row + 1, column := a.column + 1 }] else [])
    else [])

/-- `MatrixAddress::neighbors`: the pushed candidates sorted by the
derived (row-major) order.  `Vec::sort` is a stable sort; since the
candidates are pairwise distinct, any sort yields the same list, and
the embedding uses insertion sort. -/
def neighbors {T : Type} (a : MatrixAddress) (m : DenseMatrix T) : List MatrixAddress :=
  List.insertionSort le (neighborsUnsorted a m)

end MatrixAddress

/-! ## Narrow-coordinate (`i8`) embedding for the offset computation

`index_address` computes `address.row * self.columns + address.column`
in the coordinate type `I` itself.  For `I = i8` each intermediate
operation wraps into `[-128, 127]` (release profile; the debug profile
panics at the overflowing operation instead — a fault either way). -/

/-- Two's-complement wrap into `i8`. -/
def wrap8 (x : Int) : Int := (x + 128) % 256 - 128

/-- `usize -> i8` conversion: fails above `i8::MAX`. -/
def tryFromUsizeI8 (n : Nat) : Option Int :=
  if n ≤ 127 then some (n : Int) else none

/-- `new_matrix` instantiated at `I = i8` (`src/factories.rs:18-47`).
Only the conversion of the derived column count differs from the wide
model: it must fit in `i8`.  (Row counts in `0..=127` always fit
`usize`, and no other `i8` arithmetic occurs on this path.) -/
def new_matrix_i8 {T : Type} (rows : Int) (data : List T) : Outcome T :=
  if rows < 0 then .err "negative row count not supported"
  else
    match DenseMatrix.tryIntoUsize rows with
    | none => .err "row count cannot be coerced to usize"
    | some rowUsize =>
      let len := data.length
      if len = 0 ∧ rows = 0 then .ok (DenseMatrix.new 0 0 data)
      else if len = 0 then .err "missing row data"
      else if rowUsize = 0 then .fault "attempt to calculate the remainder with a divisor of zero"
      else if len % rowUsize ≠ 0 then
        .err ("data length " ++ toString len ++ " is not a multiple of rows (" ++ toString rowUsize ++ ")")
      else
        match tryFromUsizeI8 (len / rowUsize) with
        | none => .err "cannot convert columns back to I"
        | some columns => .ok (DenseMatrix.new columns rows data)

/-- `DenseMatrix::index_address` at `I = i8`, release semantics: both
the multiplication and the addition wrap into `i8`; the final
`try_into::<usize>()` fails on a negative wrapped value (`none` is the
`panic!("address overflows usize. This should be unreachable.")` arm). -/
def indexAddressI8 {T : Type} (m : DenseMatrix T) (a : MatrixAddress) : Option Nat :=
  DenseMatrix.tryIntoUsize (wrap8 (wrap8 (a.row * m.columns) + a.column))

/-- Convenience discriminator on construction outcomes. -/
def Outcome.isErr {T : Type} : Outcome T → Bool
  | .err _ => true
  | _ => false

/-- `Matrix::addresses` for a dense matrix
(`src/dense_matrix.rs:51-56`): forward iterator bounded by the
column/row counts. -/
def DenseMatrix.addresses {T : Type} (m : DenseMatrix T) : MatrixForwardIterator :=
  MatrixForwardIterator.new { row := m.rows, column := m.columns }

/-! ## Theorems -/

/-- C9: Address transposition is involutive: for every address `a`,
`a.transpose().transpose() == a`. -/
theorem transpose_involutive (a : MatrixAddress) :
    a.transpose.transpose = a := rfl

/-- C10: For every dense matrix or transposed view `m` and every index
`i`, `m.row(i)` returns a row accessor exactly when
`0 <= i < m.row_count()` (otherwise `None`), and `m.column(i)` returns
a column accessor exactly when `0 <= i < m.column_count()`; both are
total functions (never fault). -/
theorem row_column_accessor_in_range_iff {T : Type}
    (m : DenseMatrix T) (tm : TransposedMatrix T) (i : Int) :
    ((m.row i).isSome ↔ (0 ≤ i ∧ i < m.row_count))
    ∧ ((m.column i).isSome ↔ (0 ≤ i ∧ i < m.column_count))
    ∧ ((tm.row i).isSome ↔ (0 ≤ i ∧ i < tm.row_count))
    ∧ ((tm.column i).isSome ↔ (0 ≤ i ∧ i < tm.column_count)) := by
  refine ⟨?_, ?_, ?_, ?_⟩ <;>
    simp only [DenseMatrix.row, DenseMatrix.column, TransposedMatrix.row,
      TransposedMatrix.column, DenseMatrix.row_count, DenseMatrix.column_count] <;>
    split <;> simp_all <;> omega

/-- C5 (code bug): `new_matrix` is not total on caller-supplied input:
with a zero row count and a non-empty data vector it reaches
`len % row_usize` with `row_usize == 0`, and Rust's remainder by zero
panics (in every build profile) instead of returning an error result. -/
theorem new_matrix_zero_rows_nonempty_faults :
    new_matrix 0 [(0 : Int)]
      = Outcome.fault "attempt to calculate the remainder with a divisor of zero" := rfl

/-- C2 (code bug): with the advertised narrow coordinate type `i8`,
`new_matrix(2, vec![0; 254])` succeeds and yields a 2 x 127 matrix;
the address `(1, 126)` passes `contains`, yet the offset
`1 * 127 + 126 = 253` wraps to `-3` in `i8`, so the `usize` conversion
fails and `index_address` takes the "This should be unreachable."
panic branch (the debug profile faults at the overflowing add instead). -/
theorem index_address_fault_on_i8_matrix :
    new_matrix_i8 2 (List.replicate 254 (0 : Int))
        = Outcome.ok (DenseMatrix.new 127 2 (List.replicate 254 0))
    ∧ (DenseMatrix.new 127 2 (List.replicate 254 (0 : Int))).contains
        { row := 1, column := 126 } = true
    ∧ indexAddressI8 (DenseMatrix.new 127 2 (List.replicate 254 (0 : Int)))
        { row := 1, column := 126 } = none := by
  refine ⟨by decide, by decide, by decide⟩
/-- Helper: the value of `new_matrix` on the main success path. -/
theorem new_matrix_eq_ok {T : Type} (rows : Int) (data : List T)
    (h1 : ¬ rows < 0) (h3 : ¬ data.length = 0) (h4 : ¬ rows.toNat = 0)
    (h5 : data.length % rows.toNat = 0)
    (h6 : data.length / rows.toNat ≤ 2 ^ 63 - 1) :
    new_matrix rows data
      = .ok (DenseMatrix.new ((data.length / rows.toNat : Nat) : Int) rows data) := by
  have hpos : 0 ≤ rows := by omega
  have ht : DenseMatrix.tryIntoUsize rows = some rows.toNat := by
    simp [DenseMatrix.tryIntoUsize, hpos]
  have h2 : ¬ (data.length = 0 ∧ rows = 0) := fun hc => h3 hc.1
  have htf : tryFromUsize (data.length / rows.toNat)
      = some ((data.length / rows.toNat : Nat) : Int) := by
    rw [tryFromUsize, if_pos (by omega)]
  unfold new_matrix
  rw [if_neg h1, ht]
  simp only [if_neg h2, if_neg h3, if_neg h4,
    if_neg (by omega : ¬ data.length % rows.toNat ≠ 0), htf]

/-- Helper: an `ok` outcome of `new_matrix` is a well-formed matrix
whose row and column counts are zero together, with the given row
count and backing data. -/
theorem new_matrix_ok_wellFormed {T : Type} {rows : Int} {data : List T}
    {m : DenseMatrix T} (h : new_matrix rows data = .ok m) :
    m.wellFormed ∧ (m.rows = 0 ↔ m.columns = 0)
    ∧ m.rows = rows ∧ m.data = data := by
  by_cases h1 : rows < 0
  · rw [new_matrix, if_pos h1] at h
    exact absurd h (by simp)
  · have hpos : 0 ≤ rows := by omega
    have ht : DenseMatrix.tryIntoUsize rows = some rows.toNat := by
      simp [DenseMatrix.tryIntoUsize, hpos]
    by_cases h2 : data.length = 0 ∧ rows = 0
    · rw [new_matrix, if_neg h1, ht] at h
      simp only [if_pos h2, Outcome.ok.injEq] at h
      subst h
      refine ⟨⟨by simp [DenseMatrix.new], by simp [DenseMatrix.new], ?_⟩,
        by simp [DenseMatrix.new], by simp [DenseMatrix.new, h2.2], rfl⟩
      simp [DenseMatrix.new, h2.1]
    · by_cases h3 : data.length = 0
      · have hr0 : ¬ rows = 0 := fun hr => h2 ⟨h3, hr⟩
        rw [new_matrix, if_neg h1, ht] at h
        simp only [if_neg h2, if_pos h3] at h
        exact absurd h (by simp)
      · by_cases h4 : rows.toNat = 0
        · rw [new_matrix, if_neg h1, ht] at h
          simp only [if_neg h2, if_neg h3, if_pos h4] at h
          exact absurd h (by simp)
        · by_cases h5 : data.length % rows.toNat = 0
          · by_cases h6 : data.length / rows.toNat ≤ 2 ^ 63 - 1
            · rw [new_matrix_eq_ok rows data h1 h3 h4 h5 h6] at h
              simp only [Outcome.ok.injEq] at h
              subst h
              have hmul : rows.toNat * (data.length / rows.toNat) = data.length :=
                Nat.mul_div_cancel' (Nat.dvd_of_mod_eq_zero h5)
              have hqpos : data.length / rows.toNat ≠ 0 := by
                intro hq
                rw [hq, Nat.mul_zero] at hmul
                exact h3 hmul.symm
              have hcast : (rows.toNat : Int) = rows := Int.toNat_of_nonneg hpos
              have key : ((data.length : Int)) = rows * ((data.length / rows.toNat : Nat) : Int) := by
                conv_lhs => rw [← hmul]
                push_cast
                rw [hcast]
              simp only [DenseMatrix.wellFormed, DenseMatrix.new]
              refine ⟨⟨hpos, by exact_mod_cast Int.ofNat_nonneg _, key⟩, ?_, by trivial, by trivial⟩
              constructor
              · intro hr
                exact absurd (by omega : rows.toNat = 0) h4
              · intro hc
                exact absurd (by exact_mod_cast hc : data.length / rows.toNat = 0) hqpos
            · have htf : tryFromUsize (data.length / rows.toNat) = none := by
                rw [tryFromUsize, if_neg (by omega)]
              rw [new_matrix, if_neg h1, ht] at h
              simp only [if_neg h2, if_neg h3, if_neg h4,
                if_neg (by omega : ¬ data.length % rows.toNat ≠ 0), htf] at h
              exact absurd h (by simp)
          · rw [new_matrix, if_neg h1, ht] at h
            simp only [if_neg h2, if_neg h3, if_neg h4,
              if_pos (by omega : data.length % rows.toNat ≠ 0)] at h
            exact absurd h (by simp)

/-- Helper: unfolding of the bounds check. -/
theorem DenseMatrix.contains_iff {T : Type} (m : DenseMatrix T) (a : MatrixAddress) :
    m.contains a = true
      ↔ (0 ≤ a.column ∧ a.column < m.columns ∧ 0 ≤ a.row ∧ a.row < m.rows) := by
  simp only [DenseMatrix.contains, DenseMatrix.range, Bool.and_eq_true, decide_eq_true_eq]
  tauto

/-- Helper: once the bounds check has passed, the offset conversion
succeeds in the wide (exact-arithmetic) coordinate model. -/
theorem DenseMatrix.index_address_of_contains {T : Type} {m : DenseMatrix T}
    {a : MatrixAddress} (h : m.contains a = true) :
    m.index_address a = some ((a.row * m.columns + a.column).toNat) := by
  rw [DenseMatrix.contains_iff] at h
  obtain ⟨hc0, hcc, hr0, hrr⟩ := h
  rw [DenseMatrix.index_address, DenseMatrix.tryIntoUsize, if_pos]
  exact add_nonneg (mul_nonneg hr0 (by omega)) hc0

/-- Helper: for a well-formed matrix the row-major offset of an
in-bounds address is inside the backing sequence. -/
theorem DenseMatrix.offset_lt_length {T : Type} {m : DenseMatrix T}
    {a : MatrixAddress} (hw : m.wellFormed) (h : m.contains a = true) :
    ((a.row * m.columns + a.column).toNat) < m.data.length := by
  rw [DenseMatrix.contains_iff] at h
  obtain ⟨hc0, hcc, hr0, hrr⟩ := h
  obtain ⟨hrpos, hcpos, hlen⟩ := hw
  have hle : a.row * m.columns ≤ (m.rows - 1) * m.columns :=
    mul_le_mul_of_nonneg_right (by omega) (by omega)
  have hexp : (m.rows - 1) * m.columns = m.rows * m.columns - m.columns := by ring
  have hlt : a.row * m.columns + a.column < m.rows * m.columns := by
    linarith [hle, hexp, hcc]
  have hnn : 0 ≤ a.row * m.columns + a.column :=
    add_nonneg (mul_nonneg hr0 (by omega)) hc0
  omega

/-- Helper: `get` on a well-formed matrix at an in-bounds address
reads the backing cell at the row-major offset. -/
theorem DenseMatrix.get_of_contains {T : Type} {m : DenseMatrix T}
    {a : MatrixAddress} (h : m.contains a = true) :
    m.get a = m.data.get? ((a.row * m.columns + a.column).toNat) := by
  rw [DenseMatrix.get, if_pos h, DenseMatrix.index_address_of_contains h, Option.bind]

/-- Helper: writing through `get_mut` then reading the same in-bounds
address returns the written value. -/
theorem DenseMatrix.get_set_self {T : Type} {m : DenseMatrix T}
    {a : MatrixAddress} (hw : m.wellFormed) (h : m.contains a = true) (v : T) :
    (m.set a v).get a = some v := by
  have hidx := DenseMatrix.index_address_of_contains h
  have hset : m.set a v = { m with data := m.data.set ((a.row * m.columns + a.column).toNat) v } := by
    rw [DenseMatrix.set, if_pos h, hidx]
  have hc2 : (m.set a v).contains a = true := by
    rw [hset]
    rw [DenseMatrix.contains_iff] at h ⊢
    exact h
  have hidx2 : (m.set a v).index_address a = some ((a.row * m.columns + a.column).toNat) := by
    have := DenseMatrix.index_address_of_contains hc2
    rw [hset] at this ⊢
    exact this
  rw [DenseMatrix.get, if_pos hc2, hidx2, Option.bind, hset]
  have hlt := DenseMatrix.offset_lt_length hw h
  simp only [List.get?_eq_getElem?]
  exact List.getElem?_set_eq_of_lt v (by simpa using hlt)

/-- C6 counterexample: `new_default_matrix` with a zero row count and a
non-zero column count is *accepted* (yielding the 0 x 0 matrix), not
rejected with an error, refuting "constructors reject every dimension
combination in which exactly one of the two counts is zero". -/
theorem new_default_matrix_zero_rows_accepted :
    new_default_matrix (0 : Int) 5 0 = Outcome.ok (DenseMatrix.new 0 0 [])
    ∧ (new_default_matrix (0 : Int) 5 0).isErr = false := by
  refine ⟨by decide, by decide⟩

/-- C6 (amended): every matrix either constructor returns satisfies
`data.length == row_count * column_count` and is never zero-by-nonzero
(zero rows iff zero columns).  The rejection clause of the claim fails:
`new_default_matrix(columns = 5, rows = 0)` succeeds with a 0 x 0
matrix (see the counterexample), and `new_matrix(0, non-empty)` faults
rather than rejecting. -/
theorem constructed_matrix_invariant {T : Type} (rows cols : Int)
    (data : List T) (dflt : T) (m m2 : DenseMatrix T) :
    (new_matrix rows data = .ok m →
      m.wellFormed ∧ (m.rows = 0 ↔ m.columns = 0))
    ∧ (new_default_matrix dflt cols rows = .ok m2 →
      m2.wellFormed ∧ (m2.rows = 0 ↔ m2.columns = 0)) := by
  constructor
  · intro h
    exact ⟨(new_matrix_ok_wellFormed h).1, (new_matrix_ok_wellFormed h).2.1⟩
  · intro h
    rw [new_default_matrix] at h
    cases hcm : checked_multiply rows cols with
    | none => rw [hcm] at h; exact absurd h (by simp)
    | some len =>
      rw [hcm] at h
      exact ⟨(new_matrix_ok_wellFormed h).1, (new_matrix_ok_wellFormed h).2.1⟩

/-- Witness for C6's amended theorem at a concrete construction. -/
theorem constructed_matrix_invariant_witness :
    (DenseMatrix.new 2 2 [(1 : Int), 2, 3, 4]).wellFormed
    ∧ ((DenseMatrix.new 2 2 [(1 : Int), 2, 3, 4]).rows = 0
        ↔ (DenseMatrix.new 2 2 [(1 : Int), 2, 3, 4]).columns = 0) :=
  (constructed_matrix_invariant 2 0 [(1 : Int), 2, 3, 4] 0
    (DenseMatrix.new 2 2 [(1 : Int), 2, 3, 4]) (DenseMatrix.new 0 0 [])).1 (by decide)

/-- C7: each documented construction failure returns the descriptive
error result: negative row count; data length not a multiple of the
row count; empty data with a positive row count; and a row/column
product overflowing the checked-multiply bound in
`new_default_matrix`. -/
theorem construction_error_cases {T : Type} (rows cols : Int)
    (data : List T) (dflt : T) :
    (rows < 0 → new_matrix rows data = .err "negative row count not supported")
    ∧ (0 < rows → data.length ≠ 0 → data.length % rows.toNat ≠ 0 →
        new_matrix rows data
          = .err ("data length " ++ toString data.length
              ++ " is not a multiple of rows (" ++ toString rows.toNat ++ ")"))
    ∧ (0 < rows → new_matrix rows ([] : List T) = .err "missing row data")
    ∧ (0 ≤ rows → 0 ≤ cols → 2 ^ 63 - 1 < rows * cols →
        new_default_matrix dflt cols rows
          = .err "matrix dimensions exceed chosen index size") := by
  refine ⟨?_, ?_, ?_, ?_⟩
  · intro hneg
    rw [new_matrix, if_pos hneg]
  · intro hpos hlen hmod
    have ht : DenseMatrix.tryIntoUsize rows = some rows.toNat := by
      simp [DenseMatrix.tryIntoUsize]
      omega
    rw [new_matrix, if_neg (by omega), ht]
    simp only [if_neg (show ¬ (data.length = 0 ∧ rows = 0) from fun hc => hlen hc.1),
      if_neg hlen, if_neg (show ¬ rows.toNat = 0 by omega), if_pos hmod]
  · intro hpos
    have ht : DenseMatrix.tryIntoUsize rows = some rows.toNat := by
      simp [DenseMatrix.tryIntoUsize]
      omega
    rw [new_matrix, if_neg (by omega), ht]
    simp only [if_neg (show ¬ (List.length ([] : List T) = 0 ∧ rows = 0) from fun hc => by omega),
      if_pos (show List.length ([] : List T) = 0 from rfl)]
  · intro hr hc hover
    have hcm : checked_multiply rows cols = none := by
      rw [checked_multiply, if_neg (by omega), if_pos hover]
    rw [new_default_matrix, hcm]

/-- Witness for C7 at the spec's concrete inputs. -/
theorem construction_error_cases_witness :
    new_matrix (-1) [(23 : Int), 5, 2] = .err "negative row count not supported"
    ∧ new_matrix 2 [(23 : Int), 5, 2]
        = .err "data length 3 is not a multiple of rows (2)"
    ∧ new_matrix 1 ([] : List Int) = .err "missing row data"
    ∧ new_default_matrix (0 : Int) (2 ^ 32) (2 ^ 32)
        = .err "matrix dimensions exceed chosen index size" := by
  refine ⟨(construction_error_cases (-1) 0 [(23 : Int), 5, 2] 0).1 (by decide),
    ?_,
    (construction_error_cases 1 0 [(0 : Int)] 0).2.2.1 (by decide),
    (construction_error_cases (2 ^ 32) (2 ^ 32) [(0 : Int)] 0).2.2.2
      (by decide) (by decide) (by decide)⟩
  have h := (construction_error_cases 2 0 [(23 : Int), 5, 2] 0).2.1
    (by decide) (by decide) (by decide)
  simpa using h

/-- C3: a transposed view over a matrix with `R` rows and `C` columns
reports `row_count = C` and `column_count = R`; `view.get((r, c))`
returns the same cell as `underlying.get((c, r))` for every address;
and a write through the view's `get_mut` at an in-range `(r, c)` is
observable through the underlying matrix at `(c, r)`. -/
theorem transposed_view_counts_get_write {T : Type} (u : DenseMatrix T)
    (v : T) (a : MatrixAddress) (hw : u.wellFormed) :
    (new_transposed_matrix u).row_count = u.column_count
    ∧ (new_transposed_matrix u).column_count = u.row_count
    ∧ (new_transposed_matrix u).get a = u.get a.transpose
    ∧ (0 ≤ a.row → a.row < (new_transposed_matrix u).row_count →
        0 ≤ a.column → a.column < (new_transposed_matrix u).column_count →
        ((new_transposed_matrix u).set a v).underlay.get a.transpose = some v) := by
  refine ⟨rfl, rfl, rfl, ?_⟩
  intro hr0 hrc hc0 hcc
  have hcont : u.contains a.transpose = true := by
    rw [DenseMatrix.contains_iff]
    refine ⟨hr0, ?_, hc0, ?_⟩
    · simpa [TransposedMatrix.row_count, DenseMatrix.column_count,
        new_transposed_matrix, MatrixAddress.transpose] using hrc
    · simpa [TransposedMatrix.column_count, DenseMatrix.row_count,
        new_transposed_matrix, MatrixAddress.transpose] using hcc
  exact DenseMatrix.get_set_self hw hcont v

/-- Witness for C3: writing 42 through the view of a 2 x 3 matrix at
view address `(2, 1)` is readable from the underlay at `(1, 2)`. -/
theorem transposed_view_counts_get_write_witness :
    ((new_transposed_matrix (DenseMatrix.new 3 2 [(1 : Int), 2, 3, 4, 5, 6])).set
        { row := 2, column := 1 } 42).underlay.get
      (MatrixAddress.transpose { row := 2, column := 1 }) = some 42 :=
  (transposed_view_counts_get_write (DenseMatrix.new 3 2 [(1 : Int), 2, 3, 4, 5, 6])
      42 { row := 2, column := 1 } ⟨by decide, by decide, by decide⟩).2.2.2
    (by decide) (by decide) (by decide) (by decide)

namespace MatrixForwardIterator

/-- Helper: splitting a run of the forward iterator. -/
theorem run_add (a b : Nat) (s : MatrixForwardIterator) :
    run (a + b) s
      = ((run a s).1 ++ (run b (run a s).2).1, (run b (run a s).2).2) := by
  induction a generalizing s with
  | zero => simp [run]
  | succ n ih =>
    have : n + 1 + b = (n + b) + 1 := by omega
    rw [this]
    rw [run]
    rcases hnext : s.next with ⟨o, s1⟩
    cases o with
    | none =>
      simp only []
      rw [ih s1]
      rw [run, hnext]
    | some x =>
      simp only []
      rw [ih s1]
      rw [run, hnext]
      simp

/-- Helper: an exhausted iterator stays exhausted and yields nothing. -/
theorem run_exhausted (n : Nat) (e : MatrixAddress) :
    run n { end_exclusive := e, cursor := none }
      = ([], { end_exclusive := e, cursor := none }) := by
  induction n with
  | zero => rfl
  | succ k ih => rw [run, next]; exact ih

/-- Helper: running the iterator across the remainder of one row. -/
theorem run_row (R C : Int) (k : Nat) :
    ∀ (r c : Int), c + (k + 1) = C →
      run (k + 1) { end_exclusive := { row := R, column := C },
                    cursor := some { row := r, column := c } }
        = ((List.range (k + 1)).map (fun j => { row := r, column := c + (j : Int) }),
           if r + 1 = R then
             { end_exclusive := { row := R, column := C }, cursor := none }
           else
             { end_exclusive := { row := R, column := C },
               cursor := some { row := r + 1, column := 0 } }) := by
  induction k with
  | zero =>
    intro r c hc
    have hcC : c + 1 = C := by omega
    rw [run, next]
    simp only [hcC, if_pos rfl]
    by_cases hr : r + 1 = R
    · simp [if_pos hr, run, List.range_succ]
    · simp [if_neg hr, run, List.range_succ]
  | succ k ih =>
    intro r c hc
    have hne : ¬ (c + 1 = C) := by omega
    rw [run, next]
    simp only [if_neg hne]
    rw [ih r (c + 1) (by omega)]
    simp only [Prod.mk.injEq, and_true]
    conv_rhs => rw [List.range_succ_eq_map, List.map_cons, List.map_map]
    congr 1
    · simp
    · apply List.map_congr_left
      intro j hj
      simp only [Function.comp_apply, MatrixAddress.mk.injEq, true_and]
      push_cast
      ring


/-- Helper: running the iterator across the last `m + 1` full rows. -/
theorem run_rows (R C : Int) (hC : 0 < C) (m : Nat) :
    ∀ (r : Int), r + (m + 1) = R →
      run ((m + 1) * C.toNat)
          { end_exclusive := { row := R, column := C },
            cursor := some { row := r, column := 0 } }
        = ((List.range (m + 1)).flatMap
             (fun i => (List.range C.toNat).map
               (fun c => { row := r + (i : Int), column := (c : Int) })),
           { end_exclusive := { row := R, column := C }, cursor := none }) := by
  have hCt : ((C.toNat : Int)) = C := Int.toNat_of_nonneg (by omega)
  obtain ⟨k, hk⟩ : ∃ k, C.toNat = k + 1 := ⟨C.toNat - 1, by omega⟩
  induction m with
  | zero =>
    intro r hr
    rw [Nat.zero_add, one_mul, hk, run_row R C k r 0 (by omega), if_pos (by omega)]
    simp only [Prod.mk.injEq, and_true]
    rw [show List.range 1 = [0] from rfl, List.flatMap_cons,
      List.flatMap_nil, List.append_nil]
    apply List.map_congr_left
    intro c hc
    simp
  | succ m ih =>
    intro r hr
    have hsplit : (m + 1 + 1) * C.toNat = C.toNat + (m + 1) * C.toNat := by ring
    have h1 := run_row R C k r 0 (by omega)
    rw [if_neg (show ¬ r + 1 = R by omega)] at h1
    rw [← hk] at h1
    rw [hsplit, run_add, h1]
    dsimp only
    rw [ih (r + 1) (by omega)]
    dsimp only
    simp only [Prod.mk.injEq, and_true]
    conv_rhs => rw [List.range_succ_eq_map, List.flatMap_cons, List.flatMap_map]
    congr 1
    · apply List.map_congr_left
      intro c hc
      simp
    · apply List.flatMap_congr
      intro i hi
      apply List.map_congr_left
      intro c hc
      simp only [MatrixAddress.mk.injEq, and_true]
      push_cast
      ring

end MatrixForwardIterator

/-- Helper: the row-major reference sequence has exactly `R * C`
addresses. -/
theorem rowMajorAddresses_length (R C : Nat) :
    (rowMajorAddresses R C).length = R * C := by
  induction R with
  | zero => simp [rowMajorAddresses]
  | succ n ih =>
    rw [rowMajorAddresses] at ih
    rw [rowMajorAddresses, List.range_succ, List.flatMap_append,
      List.length_append, ih]
    simp [Nat.succ_mul]

/-- C4: for every matrix with `R` rows and `C` columns (`R = 0` iff
`C = 0`), the forward address iterator yields exactly the `R * C`
addresses in row-major order (so `(r, c)` comes strictly before
`(r, c+1)` and before `(r+1, 0)`), and after those `R * C` yields it is
exhausted: a further `next` yields nothing and leaves the state fixed.
A 0 x 0 matrix yields nothing. -/
theorem forward_iterator_row_major {T : Type} (m : DenseMatrix T)
    (hR : 0 ≤ m.rows) (hC : 0 ≤ m.columns)
    (hzero : m.rows = 0 ↔ m.columns = 0) :
    (MatrixForwardIterator.run (m.rows.toNat * m.columns.toNat) m.addresses).1
        = rowMajorAddresses m.rows.toNat m.columns.toNat
    ∧ ((MatrixForwardIterator.run (m.rows.toNat * m.columns.toNat) m.addresses).2).next
        = (none, (MatrixForwardIterator.run (m.rows.toNat * m.columns.toNat) m.addresses).2)
    ∧ (rowMajorAddresses m.rows.toNat m.columns.toNat).length
        = m.rows.toNat * m.columns.toNat := by
  by_cases hR0 : m.rows = 0
  · have hC0 : m.columns = 0 := hzero.mp hR0
    refine ⟨?_, ?_, rowMajorAddresses_length _ _⟩ <;>
      simp [DenseMatrix.addresses, hR0, hC0, MatrixForwardIterator.new,
        MatrixAddress.origin, MatrixForwardIterator.run, MatrixForwardIterator.next,
        rowMajorAddresses]
  · have hCpos : 0 < m.columns := by
      rcases lt_or_eq_of_le hC with h | h
      · exact h
      · exact absurd (hzero.mpr h.symm) hR0
    have hnew : m.addresses
        = { end_exclusive := { row := m.rows, column := m.columns },
            cursor := some { row := 0, column := 0 } } := by
      rw [DenseMatrix.addresses, MatrixForwardIterator.new,
        if_neg (by simp [MatrixAddress.origin, MatrixAddress.mk.injEq]; omega)]
      rfl
    obtain ⟨k, hk⟩ : ∃ k, m.rows.toNat = k + 1 := ⟨m.rows.toNat - 1, by omega⟩
    have hrun := MatrixForwardIterator.run_rows m.rows m.columns hCpos k 0
      (by rw [← Int.toNat_of_nonneg hR, hk]; push_cast; ring)
    refine ⟨?_, ?_, rowMajorAddresses_length _ _⟩
    · rw [hnew, hk, hrun]
      simp only [rowMajorAddresses]
      apply List.flatMap_congr
      intro i hi
      apply List.map_congr_left
      intro c hc
      simp
    · rw [hnew, hk, hrun]
      rfl

/-- Witness for C4 on a concrete 2 x 3 matrix. -/
theorem forward_iterator_row_major_witness :
    (MatrixForwardIterator.run
        ((DenseMatrix.new 3 2 [(1 : Int), 2, 3, 4, 5, 6]).rows.toNat
          * (DenseMatrix.new 3 2 [(1 : Int), 2, 3, 4, 5, 6]).columns.toNat)
        (DenseMatrix.new 3 2 [(1 : Int), 2, 3, 4, 5, 6]).addresses).1
      = rowMajorAddresses (DenseMatrix.new 3 2 [(1 : Int), 2, 3, 4, 5, 6]).rows.toNat
          (DenseMatrix.new 3 2 [(1 : Int), 2, 3, 4, 5, 6]).columns.toNat
    ∧ ((MatrixForwardIterator.run
        ((DenseMatrix.new 3 2 [(1 : Int), 2, 3, 4, 5, 6]).rows.toNat
          * (DenseMatrix.new 3 2 [(1 : Int), 2, 3, 4, 5, 6]).columns.toNat)
        (DenseMatrix.new 3 2 [(1 : Int), 2, 3, 4, 5, 6]).addresses).2).next
      = (none, (MatrixForwardIterator.run
        ((DenseMatrix.new 3 2 [(1 : Int), 2, 3, 4, 5, 6]).rows.toNat
          * (DenseMatrix.new 3 2 [(1 : Int), 2, 3, 4, 5, 6]).columns.toNat)
        (DenseMatrix.new 3 2 [(1 : Int), 2, 3, 4, 5, 6]).addresses).2)
    ∧ (rowMajorAddresses (DenseMatrix.new 3 2 [(1 : Int), 2, 3, 4, 5, 6]).rows.toNat
          (DenseMatrix.new 3 2 [(1 : Int), 2, 3, 4, 5, 6]).columns.toNat).length
      = (DenseMatrix.new 3 2 [(1 : Int), 2, 3, 4, 5, 6]).rows.toNat
          * (DenseMatrix.new 3 2 [(1 : Int), 2, 3, 4, 5, 6]).columns.toNat :=
  forward_iterator_row_major (DenseMatrix.new 3 2 [(1 : Int), 2, 3, 4, 5, 6])
    (by decide) (by decide) (by decide)

namespace MatrixRowIterator

/-- Helper: a terminated row iterator yields nothing from either end. -/
theorem next_of_terminated {s : MatrixRowIterator} (h : s.terminated = true) :
    s.next = (none, s) := by
  simp [next, h]

/-- Helper: a terminated row iterator yields nothing from the back. -/
theorem next_back_of_terminated {s : MatrixRowIterator} (h : s.terminated = true) :
    s.next_back = (none, s) := by
  simp [next_back, h]

/-- Helper: any interleaved consumption of a terminated row iterator
yields nothing and leaves the state unchanged. -/
theorem run_terminated (ds : List Bool) (s : MatrixRowIterator)
    (h : s.terminated = true) : run ds s = ([], [], s) := by
  induction ds with
  | nil => rfl
  | cons d ds ih =>
    cases d
    · rw [run, next_back_of_terminated h]
      exact ih
    · rw [run, next_of_terminated h]
      exact ih

/-- Helper: the interleaving invariant of the converging-cursor design.
From a live state with forward cursor `x` and back cursor `y ≥ x`, any
interleaving `ds` of front/back calls yields an ascending run from `x`
at the front, a descending run from `y` at the back, together
`min |ds| (y - x + 1)` cells, and the flag is set exactly when the
whole span has been consumed. -/
theorem run_spec (r : Int) (ds : List Bool) :
    ∀ (x y : Int), x ≤ y →
      ∃ (nf nb : Nat) (s' : MatrixRowIterator),
        run ds { row := r, column_cursor_forward := x,
                 column_cursor_back := y, terminated := false }
          = (List.map (fun (j : Nat) =>
               ({ row := r, column := x + j } : MatrixAddress)) (List.range nf),
             List.map (fun (j : Nat) =>
               ({ row := r, column := y - j } : MatrixAddress)) (List.range nb),
             s')
        ∧ nf + nb = min ds.length (y - x + 1).toNat
        ∧ s'.terminated = decide ((y - x + 1).toNat ≤ ds.length) := by
  induction ds with
  | nil =>
    intro x y hxy
    refine ⟨0, 0, _, rfl, by simp, ?_⟩
    have hd : decide ((y - x + 1).toNat ≤ ([] : List Bool).length) = false := by
      rw [decide_eq_false_iff_not]
      simp
      omega
    rw [hd]
  | cons d ds ih =>
    intro x y hxy
    cases d
    · by_cases hm : y = x
      · have hstep : next_back ⟨r, x, y, false⟩
            = (some ⟨r, y⟩, (⟨r, x, y, true⟩ : MatrixRowIterator)) := by
          simp [next_back, hm]
        rw [run, hstep]
        dsimp only
        rw [run_terminated ds _ rfl]
        refine ⟨0, 1, ⟨r, x, y, true⟩, ?_, ?_, ?_⟩
        · simp [List.range_succ]
        · have h1 : (y - x + 1).toNat = 1 := by omega
          simp [h1]
        · have h1 : (y - x + 1).toNat = 1 := by omega
          simp [h1]
      · have hstep : next_back ⟨r, x, y, false⟩
            = (some ⟨r, y⟩, (⟨r, x, y - 1, false⟩ : MatrixRowIterator)) := by
          simp [next_back, hm]
        rw [run, hstep]
        dsimp only
        obtain ⟨nf, nb, s', heq, hcount, hterm⟩ := ih x (y - 1) (by omega)
        rw [heq]
        dsimp only
        refine ⟨nf, nb + 1, s', ?_, ?_, ?_⟩
        · simp only [Prod.mk.injEq, eq_self_iff_true, true_and, and_true]
          conv_rhs => rw [List.range_succ_eq_map, List.map_cons, List.map_map]
          congr 1
          · simp
          · apply List.map_congr_left
            intro j hj
            simp only [Function.comp_apply, MatrixAddress.mk.injEq, true_and]
            push_cast
            ring
        · simp only [List.length_cons]
          omega
        · rw [hterm, decide_eq_decide]
          simp only [List.length_cons]
          omega
    · by_cases hm : x = y
      · have hstep : next ⟨r, x, y, false⟩
            = (some ⟨r, x⟩, (⟨r, x + 1, y, true⟩ : MatrixRowIterator)) := by
          simp [next, hm]
        rw [run, hstep]
        dsimp only
        rw [run_terminated ds _ rfl]
        refine ⟨1, 0, ⟨r, x + 1, y, true⟩, ?_, ?_, ?_⟩
        · simp [List.range_succ]
        · have h1 : (y - x + 1).toNat = 1 := by omega
          simp [h1]
        · have h1 : (y - x + 1).toNat = 1 := by omega
          simp [h1]
      · have hstep : next ⟨r, x, y, false⟩
            = (some ⟨r, x⟩, (⟨r, x + 1, y, false⟩ : MatrixRowIterator)) := by
          simp [next, hm]
        rw [run, hstep]
        dsimp only
        obtain ⟨nf, nb, s', heq, hcount, hterm⟩ := ih (x + 1) y (by omega)
        rw [heq]
        dsimp only
        refine ⟨nf + 1, nb, s', ?_, ?_, ?_⟩
        · simp only [Prod.mk.injEq, eq_self_iff_true, true_and, and_true]
          conv_rhs => rw [List.range_succ_eq_map, List.map_cons, List.map_map]
          congr 1
          · simp
          · apply List.map_congr_left
            intro j hj
            simp only [Function.comp_apply, MatrixAddress.mk.injEq, true_and]
            push_cast
            ring
        · simp only [List.length_cons]
          omega
        · rw [hterm, decide_eq_decide]
          simp only [List.length_cons]
          omega

end MatrixRowIterator

/-- Helper: a descending run of addresses along a row, reversed, is the
ascending run over the same span. -/
theorem map_desc_reverse (r : Int) :
    ∀ (n : Nat) (s : Int),
      (List.map (fun (j : Nat) =>
        ({ row := r, column := s + n - 1 - j } : MatrixAddress)) (List.range n)).reverse
        = List.map (fun (j : Nat) =>
            ({ row := r, column := s + j } : MatrixAddress)) (List.range n) := by
  intro n
  induction n with
  | zero => intro s; rfl
  | succ k ih =>
    intro s
    conv_lhs => rw [List.range_succ]
    rw [List.map_append, List.reverse_append]
    simp only [List.map_cons, List.map_nil, List.reverse_cons, List.reverse_nil,
      List.nil_append, List.singleton_append]
    have hf : List.map (fun (j : Nat) =>
          ({ row := r, column := s + (k + 1 : Nat) - 1 - j } : MatrixAddress)) (List.range k)
        = List.map (fun (j : Nat) =>
            ({ row := r, column := (s + 1) + (k : Nat) - 1 - j } : MatrixAddress)) (List.range k) := by
      apply List.map_congr_left
      intro j hj
      simp only [MatrixAddress.mk.injEq, true_and]
      push_cast
      ring
    rw [hf, ih (s + 1)]
    conv_rhs => rw [List.range_succ_eq_map, List.map_cons, List.map_map]
    congr 1
    · simp only [MatrixAddress.mk.injEq, true_and]
      push_cast
      ring
    · apply List.map_congr_left
      intro j hj
      simp only [Function.comp_apply, MatrixAddress.mk.injEq, true_and]
      push_cast
      ring

/-- Helper: a descending run of addresses along a column, reversed, is
the ascending run over the same span. -/
theorem map_desc_reverse_col (c : Int) :
    ∀ (n : Nat) (s : Int),
      (List.map (fun (j : Nat) =>
        ({ row := s + n - 1 - j, column := c } : MatrixAddress)) (List.range n)).reverse
        = List.map (fun (j : Nat) =>
            ({ row := s + j, column := c } : MatrixAddress)) (List.range n) := by
  intro n
  induction n with
  | zero => intro s; rfl
  | succ k ih =>
    intro s
    conv_lhs => rw [List.range_succ]
    rw [List.map_append, List.reverse_append]
    simp only [List.map_cons, List.map_nil, List.reverse_cons, List.reverse_nil,
      List.nil_append, List.singleton_append]
    have hf : List.map (fun (j : Nat) =>
          ({ row := s + (k + 1 : Nat) - 1 - j, column := c } : MatrixAddress)) (List.range k)
        = List.map (fun (j : Nat) =>
            ({ row := (s + 1) + (k : Nat) - 1 - j, column := c } : MatrixAddress)) (List.range k) := by
      apply List.map_congr_left
      intro j hj
      simp only [MatrixAddress.mk.injEq, and_true]
      push_cast
      ring
    rw [hf, ih (s + 1)]
    conv_rhs => rw [List.range_succ_eq_map, List.map_cons, List.map_map]
    congr 1
    · simp only [MatrixAddress.mk.injEq, and_true]
      push_cast
      ring
    · apply List.map_congr_left
      intro j hj
      simp only [Function.comp_apply, MatrixAddress.mk.injEq, and_true]
      push_cast
      ring

/-- Helper: an ascending run from 0 followed by an ascending run from
`a` along a row is the full ascending run. -/
theorem map_range_append (r : Int) (a b : Nat) :
    List.map (fun (j : Nat) => ({ row := r, column := (j : Int) } : MatrixAddress)) (List.range a)
      ++ List.map (fun (j : Nat) => ({ row := r, column := (a : Int) + j } : MatrixAddress)) (List.range b)
    = List.map (fun (j : Nat) => ({ row := r, column := (j : Int) } : MatrixAddress)) (List.range (a + b)) := by
  rw [List.range_add, List.map_append, List.map_map]
  congr 1

/-- Helper: the column-axis version of `map_range_append`. -/
theorem map_range_append_col (c : Int) (a b : Nat) :
    List.map (fun (j : Nat) => ({ row := (j : Int), column := c } : MatrixAddress)) (List.range a)
      ++ List.map (fun (j : Nat) => ({ row := (a : Int) + j, column := c } : MatrixAddress)) (List.range b)
    = List.map (fun (j : Nat) => ({ row := (j : Int), column := c } : MatrixAddress)) (List.range (a + b)) := by
  rw [List.range_add, List.map_append, List.map_map]
  congr 1

namespace MatrixColumnIterator

/-- Helper: a terminated column iterator yields nothing from the front. -/
theorem col_next_of_terminated {s : MatrixColumnIterator} (h : s.terminated = true) :
    s.next = (none, s) := by
  simp [next, h]

/-- Helper: a terminated column iterator yields nothing from the back. -/
theorem col_next_back_of_terminated {s : MatrixColumnIterator} (h : s.terminated = true) :
    s.next_back = (none, s) := by
  simp [next_back, h]

/-- Helper: any interleaved consumption of a terminated column iterator
yields nothing and leaves the state unchanged. -/
theorem col_run_terminated (ds : List Bool) (s : MatrixColumnIterator)
    (h : s.terminated = true) : run ds s = ([], [], s) := by
  induction ds with
  | nil => rfl
  | cons d ds ih =>
    cases d
    · rw [run, col_next_back_of_terminated h]
      exact ih
    · rw [run, col_next_of_terminated h]
      exact ih

/-- Helper: the column iterator is the row iterator with the two
address components swapped - its `next`/`next_back` produce the
transposed address and evolve the identically-shaped cursor state
(`src/iter.rs:318-368` versus `src/iter.rs:169-219`). -/
theorem run_eq_row (ds : List Bool) :
    ∀ (c x y : Int) (t : Bool),
      run ds ⟨c, x, y, t⟩
        = ((MatrixRowIterator.run ds ⟨c, x, y, t⟩).1.map MatrixAddress.transpose,
           (MatrixRowIterator.run ds ⟨c, x, y, t⟩).2.1.map MatrixAddress.transpose,
           ⟨c, (MatrixRowIterator.run ds ⟨c, x, y, t⟩).2.2.column_cursor_forward,
              (MatrixRowIterator.run ds ⟨c, x, y, t⟩).2.2.column_cursor_back,
              (MatrixRowIterator.run ds ⟨c, x, y, t⟩).2.2.terminated⟩) := by
  induction ds with
  | nil =>
    intro c x y t
    rfl
  | cons d ds ih =>
    intro c x y t
    cases t
    · cases d
      · by_cases hm : y = x
        · have h1 : next_back ⟨c, x, y, false⟩
              = (some ⟨y, c⟩, (⟨c, x, y, true⟩ : MatrixColumnIterator)) := by
            simp [next_back, hm]
          have h2 : MatrixRowIterator.next_back ⟨c, x, y, false⟩
              = (some ⟨c, y⟩, (⟨c, x, y, true⟩ : MatrixRowIterator)) := by
            simp [MatrixRowIterator.next_back, hm]
          rw [run, h1, MatrixRowIterator.run, h2]
          dsimp only
          rw [ih c x y true]
          rfl
        · have h1 : next_back ⟨c, x, y, false⟩
              = (some ⟨y, c⟩, (⟨c, x, y - 1, false⟩ : MatrixColumnIterator)) := by
            simp [next_back, hm]
          have h2 : MatrixRowIterator.next_back ⟨c, x, y, false⟩
              = (some ⟨c, y⟩, (⟨c, x, y - 1, false⟩ : MatrixRowIterator)) := by
            simp [MatrixRowIterator.next_back, hm]
          rw [run, h1, MatrixRowIterator.run, h2]
          dsimp only
          rw [ih c x (y - 1) false]
          rfl
      · by_cases hm : x = y
        · have h1 : next ⟨c, x, y, false⟩
              = (some ⟨x, c⟩, (⟨c, x + 1, y, true⟩ : MatrixColumnIterator)) := by
            simp [next, hm]
          have h2 : MatrixRowIterator.next ⟨c, x, y, false⟩
              = (some ⟨c, x⟩, (⟨c, x + 1, y, true⟩ : MatrixRowIterator)) := by
            simp [MatrixRowIterator.next, hm]
          rw [run, h1, MatrixRowIterator.run, h2]
          dsimp only
          rw [ih c (x + 1) y true]
          rfl
        · have h1 : next ⟨c, x, y, false⟩
              = (some ⟨x, c⟩, (⟨c, x + 1, y, false⟩ : MatrixColumnIterator)) := by
            simp [next, hm]
          have h2 : MatrixRowIterator.next ⟨c, x, y, false⟩
              = (some ⟨c, x⟩, (⟨c, x + 1, y, false⟩ : MatrixRowIterator)) := by
            simp [MatrixRowIterator.next, hm]
          rw [run, h1, MatrixRowIterator.run, h2]
          dsimp only
          rw [ih c (x + 1) y false]
          rfl
    · cases d
      · rw [run, col_next_back_of_terminated rfl,
          MatrixRowIterator.run, MatrixRowIterator.next_back_of_terminated rfl]
        exact ih c x y true
      · rw [run, col_next_of_terminated rfl,
          MatrixRowIterator.run, MatrixRowIterator.next_of_terminated rfl]
        exact ih c x y true

end MatrixColumnIterator

/-- C1: for a matrix with at least one column and any row index, any
interleaving `ds` of front (`true`) and back (`false`) calls on the
row's bidirectional iterator yields an ascending run of the row's
addresses from column 0 at the front and a descending run from column
`column_count - 1` at the back; together `min |ds| column_count` cells,
so each cell exactly once with no duplicate and no gap; once
`column_count` combined yields have happened the front list followed by
the reversed back list is exactly the whole row in ascending order, the
flag is set, and both `next` and `next_back` report exhaustion.  A
zero-width axis yields nothing from either end.  The same holds
symmetrically for a column's iterator over row indices. -/
theorem row_column_iterator_interleaving {T : Type} (m : DenseMatrix T)
    (r c : Int) (ds : List Bool) :
    (1 ≤ m.column_count →
      ∃ (nf nb : Nat) (s' : MatrixRowIterator),
        MatrixRowIterator.run ds (MatrixRowIterator.new m r)
          = (List.map (fun (j : Nat) => ({ row := r, column := (j : Int) } : MatrixAddress)) (List.range nf),
             List.map (fun (j : Nat) => ({ row := r, column := m.column_count - 1 - j } : MatrixAddress)) (List.range nb),
             s')
        ∧ nf + nb = min ds.length m.column_count.toNat
        ∧ (m.column_count.toNat ≤ ds.length →
            List.map (fun (j : Nat) => ({ row := r, column := (j : Int) } : MatrixAddress)) (List.range nf)
              ++ (List.map (fun (j : Nat) => ({ row := r, column := m.column_count - 1 - j } : MatrixAddress)) (List.range nb)).reverse
            = List.map (fun (j : Nat) => ({ row := r, column := (j : Int) } : MatrixAddress)) (List.range m.column_count.toNat))
        ∧ s'.terminated = decide (m.column_count.toNat ≤ ds.length)
        ∧ (s'.terminated = true →
            s'.next = (none, s') ∧ s'.next_back = (none, s')))
    ∧ (m.column_count = 0 →
        MatrixRowIterator.run ds (MatrixRowIterator.new m r)
          = ([], [], MatrixRowIterator.new m r))
    ∧ (1 ≤ m.row_count →
      ∃ (nf nb : Nat) (s' : MatrixColumnIterator),
        MatrixColumnIterator.run ds (MatrixColumnIterator.new m c)
          = (List.map (fun (j : Nat) => ({ row := (j : Int), column := c } : MatrixAddress)) (List.range nf),
             List.map (fun (j : Nat) => ({ row := m.row_count - 1 - j, column := c } : MatrixAddress)) (List.range nb),
             s')
        ∧ nf + nb = min ds.length m.row_count.toNat
        ∧ (m.row_count.toNat ≤ ds.length →
            List.map (fun (j : Nat) => ({ row := (j : Int), column := c } : MatrixAddress)) (List.range nf)
              ++ (List.map (fun (j : Nat) => ({ row := m.row_count - 1 - j, column := c } : MatrixAddress)) (List.range nb)).reverse
            = List.map (fun (j : Nat) => ({ row := (j : Int), column := c } : MatrixAddress)) (List.range m.row_count.toNat))
        ∧ s'.terminated = decide (m.row_count.toNat ≤ ds.length)
        ∧ (s'.terminated = true →
            s'.next = (none, s') ∧ s'.next_back = (none, s')))
    ∧ (m.row_count = 0 →
        MatrixColumnIterator.run ds (MatrixColumnIterator.new m c)
          = ([], [], MatrixColumnIterator.new m c)) := by
  refine ⟨?_, ?_, ?_, ?_⟩
  · intro hc
    have hterm0 : (decide (m.column_count = 0)) = false := by
      rw [decide_eq_false_iff_not]
      omega
    have hnew : MatrixRowIterator.new m r
        = (⟨r, 0, m.column_count - 1, false⟩ : MatrixRowIterator) := by
      simp [MatrixRowIterator.new, hterm0]
    obtain ⟨nf, nb, s', heq, hcount, hterm⟩ :=
      MatrixRowIterator.run_spec r ds 0 (m.column_count - 1) (by omega)
    have hF : List.map (fun (j : Nat) => ({ row := r, column := (0 : Int) + j } : MatrixAddress)) (List.range nf)
        = List.map (fun (j : Nat) => ({ row := r, column := (j : Int) } : MatrixAddress)) (List.range nf) := by
      apply List.map_congr_left
      intro j hj
      simp
    have htot : (m.column_count - 1 - 0 + 1).toNat = m.column_count.toNat := by
      omega
    rw [hnew]
    refine ⟨nf, nb, s', ?_, ?_, ?_, ?_, ?_⟩
    · rw [heq, hF]
    · rw [hcount, htot]
    · intro hds
      have hsum : nf + nb = m.column_count.toNat := by omega
      have hBfun : List.map (fun (j : Nat) => ({ row := r, column := m.column_count - 1 - j } : MatrixAddress)) (List.range nb)
          = List.map (fun (j : Nat) => ({ row := r, column := (nf : Int) + nb - 1 - j } : MatrixAddress)) (List.range nb) := by
        apply List.map_congr_left
        intro j hj
        simp only [MatrixAddress.mk.injEq, true_and]
        omega
      rw [hBfun, map_desc_reverse r nb (nf : Int), map_range_append r nf nb, hsum]
    · rw [hterm, decide_eq_decide]
      omega
    · intro ht
      exact ⟨MatrixRowIterator.next_of_terminated ht,
        MatrixRowIterator.next_back_of_terminated ht⟩
  · intro hc0
    have ht : (MatrixRowIterator.new m r).terminated = true := by
      simp [MatrixRowIterator.new, hc0]
    exact MatrixRowIterator.run_terminated ds _ ht
  · intro hr
    have hterm0 : (decide (m.row_count = 0)) = false := by
      rw [decide_eq_false_iff_not]
      omega
    have hnew : MatrixColumnIterator.new m c
        = (⟨c, 0, m.row_count - 1, false⟩ : MatrixColumnIterator) := by
      simp [MatrixColumnIterator.new, hterm0]
    obtain ⟨nf, nb, s', heq, hcount, hterm⟩ :=
      MatrixRowIterator.run_spec c ds 0 (m.row_count - 1) (by omega)
    have htot : (m.row_count - 1 - 0 + 1).toNat = m.row_count.toNat := by
      omega
    rw [hnew, MatrixColumnIterator.run_eq_row ds c 0 (m.row_count - 1) false, heq]
    dsimp only
    have hF : List.map MatrixAddress.transpose
          (List.map (fun (j : Nat) => ({ row := c, column := (0 : Int) + j } : MatrixAddress)) (List.range nf))
        = List.map (fun (j : Nat) => ({ row := (j : Int), column := c } : MatrixAddress)) (List.range nf) := by
      rw [List.map_map]
      apply List.map_congr_left
      intro j hj
      simp [MatrixAddress.transpose]
    have hB : List.map MatrixAddress.transpose
          (List.map (fun (j : Nat) => ({ row := c, column := m.row_count - 1 - j } : MatrixAddress)) (List.range nb))
        = List.map (fun (j : Nat) => ({ row := m.row_count - 1 - j, column := c } : MatrixAddress)) (List.range nb) := by
      rw [List.map_map]
      apply List.map_congr_left
      intro j hj
      simp [MatrixAddress.transpose]
    refine ⟨nf, nb, ⟨c, s'.column_cursor_forward, s'.column_cursor_back, s'.terminated⟩,
      ?_, ?_, ?_, ?_, ?_⟩
    · rw [hF, hB]
    · rw [hcount, htot]
    · intro hds
      have hsum : nf + nb = m.row_count.toNat := by omega
      have hBfun : List.map (fun (j : Nat) => ({ row := m.row_count - 1 - j, column := c } : MatrixAddress)) (List.range nb)
          = List.map (fun (j : Nat) => ({ row := (nf : Int) + nb - 1 - j, column := c } : MatrixAddress)) (List.range nb) := by
        apply List.map_congr_left
        intro j hj
        simp only [MatrixAddress.mk.injEq, and_true]
        omega
      rw [hBfun, map_desc_reverse_col c nb (nf : Int), map_range_append_col c nf nb, hsum]
    · show s'.terminated = _
      rw [hterm, decide_eq_decide]
      omega
    · intro ht
      exact ⟨MatrixColumnIterator.col_next_of_terminated ht,
        MatrixColumnIterator.col_next_back_of_terminated ht⟩
  · intro hr0
    have ht : (MatrixColumnIterator.new m c).terminated = true := by
      simp [MatrixColumnIterator.new, hr0]
    exact MatrixColumnIterator.col_run_terminated ds _ ht

/-- Witness for C1: a concrete 2 x 3 matrix, row 0, interleaving
front, back, front. -/
theorem row_column_iterator_interleaving_witness :
    ∃ (nf nb : Nat) (s' : MatrixRowIterator),
      MatrixRowIterator.run [true, false, true]
          (MatrixRowIterator.new (DenseMatrix.new 3 2 [(1 : Int), 2, 3, 4, 5, 6]) 0)
        = (List.map (fun (j : Nat) => ({ row := 0, column := (j : Int) } : MatrixAddress)) (List.range nf),
           List.map (fun (j : Nat) => ({ row := 0, column := (DenseMatrix.new 3 2 [(1 : Int), 2, 3, 4, 5, 6]).column_count - 1 - j } : MatrixAddress)) (List.range nb),
           s')
      ∧ nf + nb = min ([true, false, true] : List Bool).length (DenseMatrix.new 3 2 [(1 : Int), 2, 3, 4, 5, 6]).column_count.toNat
      ∧ ((DenseMatrix.new 3 2 [(1 : Int), 2, 3, 4, 5, 6]).column_count.toNat ≤ ([true, false, true] : List Bool).length →
          List.map (fun (j : Nat) => ({ row := 0, column := (j : Int) } : MatrixAddress)) (List.range nf)
            ++ (List.map (fun (j : Nat) => ({ row := 0, column := (DenseMatrix.new 3 2 [(1 : Int), 2, 3, 4, 5, 6]).column_count - 1 - j } : MatrixAddress)) (List.range nb)).reverse
          = List.map (fun (j : Nat) => ({ row := 0, column := (j : Int) } : MatrixAddress)) (List.range (DenseMatrix.new 3 2 [(1 : Int), 2, 3, 4, 5, 6]).column_count.toNat))
      ∧ s'.terminated = decide ((DenseMatrix.new 3 2 [(1 : Int), 2, 3, 4, 5, 6]).column_count.toNat ≤ ([true, false, true] : List Bool).length)
      ∧ (s'.terminated = true →
          s'.next = (none, s') ∧ s'.next_back = (none, s')) :=
  (row_column_iterator_interleaving (DenseMatrix.new 3 2 [(1 : Int), 2, 3, 4, 5, 6])
    0 1 [true, false, true]).1 (by decide)

/-- C8 counterexample: in the 1 x 1 matrix produced by
`new_default_matrix(1, 1)`, the corner address `(0, 0)` (both of its
coordinates are extremal) has 0 neighbors, not 3, refuting "corner
addresses yield 3" read over every matrix. -/
theorem corner_three_neighbors_fails_on_one_by_one :
    new_default_matrix (0 : Int) 1 1 = Outcome.ok (DenseMatrix.new 1 1 [0])
    ∧ (DenseMatrix.new 1 1 [(0 : Int)]).contains { row := 0, column := 0 } = true
    ∧ (MatrixAddress.neighbors { row := 0, column := 0 }
        (DenseMatrix.new 1 1 [(0 : Int)])).length = 0 := by
  refine ⟨by decide, by decide, by decide⟩

/-- Helper: membership in the unsorted candidate list is exactly
in-bounds 8-connectivity. -/
theorem mem_neighborsUnsorted_iff {T : Type} (m : DenseMatrix T)
    (a b : MatrixAddress) (ha : m.contains a = true) :
    b ∈ MatrixAddress.neighborsUnsorted a m
      ↔ (m.contains b = true ∧ b ≠ a
          ∧ a.row - 1 ≤ b.row ∧ b.row ≤ a.row + 1
          ∧ a.column - 1 ≤ b.column ∧ b.column ≤ a.column + 1) := by
  obtain ⟨ar, ac⟩ := a
  obtain ⟨br, bc⟩ := b
  rw [DenseMatrix.contains_iff] at ha
  dsimp only at ha
  simp only [MatrixAddress.neighborsUnsorted, DenseMatrix.row_count,
    DenseMatrix.column_count, List.mem_append, List.mem_ite_nil_right,
    List.mem_singleton, List.mem_cons, List.not_mem_nil, or_false,
    MatrixAddress.mk.injEq, DenseMatrix.contains_iff, ne_eq, not_and]
  omega

/-- Helper: the candidate list never repeats an address. -/
theorem neighborsUnsorted_nodup {T : Type} (m : DenseMatrix T) (a : MatrixAddress) :
    (MatrixAddress.neighborsUnsorted a m).Nodup := by
  obtain ⟨ar, ac⟩ := a
  simp only [MatrixAddress.neighborsUnsorted, DenseMatrix.row_count,
    DenseMatrix.column_count]
  split_ifs <;>
    simp_all [List.Nodup, List.pairwise_append, List.mem_append,
      MatrixAddress.mk.injEq] <;>
    omega

/-- Helper: membership in `neighbors` (sorting preserves members). -/
theorem mem_neighbors_iff {T : Type} (m : DenseMatrix T)
    (a b : MatrixAddress) (ha : m.contains a = true) :
    b ∈ MatrixAddress.neighbors a m
      ↔ (m.contains b = true ∧ b ≠ a
          ∧ a.row - 1 ≤ b.row ∧ b.row ≤ a.row + 1
          ∧ a.column - 1 ≤ b.column ∧ b.column ≤ a.column + 1) := by
  rw [MatrixAddress.neighbors,
    (List.perm_insertionSort MatrixAddress.le (MatrixAddress.neighborsUnsorted a m)).mem_iff]
  exact mem_neighborsUnsorted_iff m a b ha

/-- Helper: the length of `neighbors`, by cases on which clip
conditions hold. -/
theorem neighbors_length_eq {T : Type} (m : DenseMatrix T) (a : MatrixAddress) :
    (MatrixAddress.neighbors a m).length
      = (MatrixAddress.neighborsUnsorted a m).length :=
  (List.perm_insertionSort MatrixAddress.le (MatrixAddress.neighborsUnsorted a m)).length_eq

/-- C8 (amended): for every matrix and in-bounds address, `neighbors`
returns exactly the in-bounds 8-connected neighbors, sorted in
row-major address order with no duplicate, never containing the address
itself or an out-of-range address; an address on any boundary has fewer
than 8 neighbors; a corner of a matrix with at least two rows and at
least two columns has exactly 3 (in a degenerate single-row or
single-column matrix a corner has fewer - see the counterexample); in
a 3 x 3 matrix, `(0,0)` has exactly the neighbors
`(0,1), (1,0), (1,1)` and the center `(1,1)` has exactly 8. -/
theorem neighbors_characterization {T : Type} (m : DenseMatrix T)
    (a : MatrixAddress) (ha : m.contains a = true) :
    (∀ b, b ∈ MatrixAddress.neighbors a m
      ↔ (m.contains b = true ∧ b ≠ a
          ∧ a.row - 1 ≤ b.row ∧ b.row ≤ a.row + 1
          ∧ a.column - 1 ≤ b.column ∧ b.column ≤ a.column + 1))
    ∧ List.Sorted MatrixAddress.le (MatrixAddress.neighbors a m)
    ∧ (MatrixAddress.neighbors a m).Nodup
    ∧ a ∉ MatrixAddress.neighbors a m
    ∧ (∀ b ∈ MatrixAddress.neighbors a m, m.contains b = true)
    ∧ ((a.row = 0 ∨ a.row = m.row_count - 1 ∨ a.column = 0 ∨ a.column = m.column_count - 1) →
        (MatrixAddress.neighbors a m).length < 8)
    ∧ (2 ≤ m.row_count → 2 ≤ m.column_count →
        (a.row = 0 ∨ a.row = m.row_count - 1) →
        (a.column = 0 ∨ a.column = m.column_count - 1) →
        (MatrixAddress.neighbors a m).length = 3)
    ∧ MatrixAddress.neighbors { row := 0, column := 0 }
        (DenseMatrix.new 3 3 (List.replicate 9 (0 : Int)))
        = [{ row := 0, column := 1 }, { row := 1, column := 0 }, { row := 1, column := 1 }]
    ∧ (MatrixAddress.neighbors { row := 1, column := 1 }
        (DenseMatrix.new 3 3 (List.replicate 9 (0 : Int)))).length = 8 := by
  have hbounds := ha
  rw [DenseMatrix.contains_iff] at hbounds
  refine ⟨fun b => mem_neighbors_iff m a b ha,
    List.sorted_insertionSort MatrixAddress.le (MatrixAddress.neighborsUnsorted a m),
    ((List.perm_insertionSort MatrixAddress.le
        (MatrixAddress.neighborsUnsorted a m)).nodup_iff).mpr
      (neighborsUnsorted_nodup m a),
    ?_, ?_, ?_, ?_, by decide, by decide⟩
  · intro hmem
    have h := (mem_neighbors_iff m a a ha).mp hmem
    exact h.2.1 rfl
  · intro b hb
    exact ((mem_neighbors_iff m a b ha).mp hb).1
  · intro hbdry
    rw [neighbors_length_eq]
    obtain ⟨ar, ac⟩ := a
    dsimp only at hbounds hbdry
    simp only [MatrixAddress.neighborsUnsorted, DenseMatrix.row_count,
      DenseMatrix.column_count, apply_ite List.length, List.length_append,
      List.length_singleton, List.length_nil] at *
    split_ifs <;> omega
  · intro hR hC hcr hcc
    rw [neighbors_length_eq]
    obtain ⟨ar, ac⟩ := a
    dsimp only at hbounds hcr hcc
    simp only [MatrixAddress.neighborsUnsorted, DenseMatrix.row_count,
      DenseMatrix.column_count, apply_ite List.length, List.length_append,
      List.length_singleton, List.length_nil] at *
    split_ifs <;> omega

/-- Witness for C8: the center of the 3 x 3 matrix has 8 neighbors,
obtained through the characterization theorem at the in-bounds corner
address `(0, 0)`. -/
theorem neighbors_characterization_witness :
    (MatrixAddress.neighbors { row := 1, column := 1 }
      (DenseMatrix.new 3 3 (List.replicate 9 (0 : Int)))).length = 8 :=
  (neighbors_characterization (DenseMatrix.new 3 3 (List.replicate 9 (0 : Int)))
    { row := 0, column := 0 } (by decide)).2.2.2.2.2.2.2.2
